import Mathlib

/-!
Verification of the AI code-review extension (Azure DevOps task + review
pipeline) against its natural-language specification.

The task entrypoint is embedded from src/tasks/AICodeReviewTask/index.ts.
The review pipeline (DiffBudgeter, ContextDetector, SkillLoader,
PromptAssembler, ReviewInvoker, ResponseParser) lives in review_code.py,
which is not present in the source tree; those components are modelled
from the specification text, as marked on each definition.
-/

set_option maxRecDepth 4000

/-! ## Embedding of the task entrypoint (src/tasks/AICodeReviewTask/index.ts) -/

/-- JavaScript string disjunction: a nonempty string is truthy, so
a || b evaluates to a when a is nonempty and to b otherwise
(undefined is represented as the empty string by the callers below). -/
def jsOr (a b : String) : String := if a = "" then b else a

/-- Embeds tl.getInput(name, false) || defaultValue from index.ts:
an absent input behaves like undefined and an empty input is falsy,
so both fall through to the default. -/
def getInputOr (v : Option String) (d : String) : String :=
  match v with
  | some s => jsOr s d
  | none => d

/-- Task results of azure-pipelines-task-lib used by index.ts. -/
inductive TaskResult where
  | Succeeded
  | SucceededWithIssues
  | Failed
deriving DecidableEq, Repr

/-- Task inputs read by run in index.ts; none models an input that was
not supplied (tl.getInput returns undefined).  githubPat is required:
none means tl.getInput("githubPat", true) throws. -/
structure TaskInputs where
  githubPat : Option String
  adoPat : Option String
  copilotModel : Option String
  maxFiles : Option String
  maxLinesPerFile : Option String
  customPrompt : Option String
  promptFile : Option String
  debug : Option String
  continueOnError : Option String
deriving DecidableEq, Repr

/-- Ambient agent state observed by run: the System.AccessToken pipeline
variable ("" when unset), the results of the two tl.which probes, and
the outcome of executing the review script (an exit code, or an error
message when the exec call rejects). -/
structure TaskEnv where
  systemAccessToken : String
  whichPython3 : String
  whichPython : Option String
  execOutcome : Except String Int
deriving Repr

/-- Observable effects of one execution of run: the (result, message)
pair passed to tl.setResult (none would mean no call was made), whether
a Python interpreter was located, whether the review script was
launched, which environment variables were written to process.env, and
the environment map passed to the exec call. -/
structure RunOutcome where
  result : Option (TaskResult × String)
  locatedPython : Bool
  executedScript : Bool
  envWritten : List (String × String)
  execEnv : Option (List (String × String))
deriving DecidableEq, Repr

/-- Message of the early Failed result in index.ts lines 22-28. -/
def noTokenMessage : String :=
  "No Azure DevOps access token found. Enable \"Allow scripts to access OAuth token\" in pipeline settings, or provide an ADO PAT."

/-- Catch handler of run (index.ts lines 88-100): re-reads the
continueOnError input and maps the caught error to
SucceededWithIssues or Failed. -/
def catchResult (inp : TaskInputs) (errMsg : String) : TaskResult × String :=
  let continueOnError := getInputOr inp.continueOnError "true"
  if continueOnError = "true" then
    (TaskResult.SucceededWithIssues, "Review failed: " ++ errMsg)
  else
    (TaskResult.Failed, "Review failed: " ++ errMsg)

/-- Environment-variable map built by run (index.ts lines 43-59). -/
def envVarsOf (githubPat adoPat copilotModel maxFiles maxLinesPerFile
    customPrompt promptFile debug continueOnError systemToken : String) :
    List (String × String) :=
  [("INPUT_GITHUB_PAT", githubPat),
   ("INPUT_ADO_PAT", adoPat),
   ("INPUT_COPILOT_MODEL", copilotModel),
   ("INPUT_MAX_FILES", maxFiles),
   ("INPUT_MAX_LINES_PER_FILE", maxLinesPerFile),
   ("INPUT_CUSTOM_PROMPT", customPrompt),
   ("INPUT_PROMPT_FILE", promptFile),
   ("INPUT_DEBUG", debug),
   ("INPUT_CONTINUE_ON_ERROR", continueOnError),
   ("SYSTEM_ACCESSTOKEN", systemToken),
   ("GH_TOKEN", githubPat),
   ("GITHUB_TOKEN", githubPat)]

/-- Python resolution in index.ts line 35-36:
tl.which("python3", false) || tl.which("python", true); the second
probe throws when Python is absent (modelled by none). -/
def whichPythonPath (env : TaskEnv) : Option String :=
  if env.whichPython3 = "" then env.whichPython else some env.whichPython3

/-- Embedding of async function run() from
src/tasks/AICodeReviewTask/index.ts.  Exceptions raised inside the try
block (missing required input, Python not found, exec rejection) flow
to catchResult, exactly as the try/catch does. -/
def run (inp : TaskInputs) (env : TaskEnv) : RunOutcome :=
  match inp.githubPat with
  | none =>
      { result := some (catchResult inp "Input required: githubPat"),
        locatedPython := false, executedScript := false,
        envWritten := [], execEnv := none }
  | some githubPat =>
      let adoPat := getInputOr inp.adoPat ""
      let copilotModel := getInputOr inp.copilotModel ""
      let maxFiles := getInputOr inp.maxFiles "50"
      let maxLinesPerFile := getInputOr inp.maxLinesPerFile "1000"
      let customPrompt := getInputOr inp.customPrompt ""
      let promptFile := getInputOr inp.promptFile ""
      let debug := getInputOr inp.debug "false"
      let continueOnError := getInputOr inp.continueOnError "true"
      let systemToken := jsOr (jsOr env.systemAccessToken adoPat) ""
      if systemToken = "" then
        { result := some (TaskResult.Failed, noTokenMessage),
          locatedPython := false, executedScript := false,
          envWritten := [], execEnv := none }
      else
        match whichPythonPath env with
        | none =>
            { result := some (catchResult inp "Not found python"),
              locatedPython := false, executedScript := false,
              envWritten := [], execEnv := none }
        | some _pythonPath =>
            let envVars := envVarsOf githubPat adoPat copilotModel maxFiles
              maxLinesPerFile customPrompt promptFile debug continueOnError
              systemToken
            let written := envVars.filter (fun kv => kv.2 ≠ "")
            match env.execOutcome with
            | Except.error msg =>
                { result := some (catchResult inp msg),
                  locatedPython := true, executedScript := true,
                  envWritten := written, execEnv := some envVars }
            | Except.ok exitCode =>
                if exitCode ≠ 0 then
                  if continueOnError = "true" then
                    { result := some (TaskResult.SucceededWithIssues,
                        "Review script exited with code " ++ toString exitCode),
                      locatedPython := true, executedScript := true,
                      envWritten := written, execEnv := some envVars }
                  else
                    { result := some (TaskResult.Failed,
                        "Review script exited with code " ++ toString exitCode),
                      locatedPython := true, executedScript := true,
                      envWritten := written, execEnv := some envVars }
                else
                  { result := some (TaskResult.Succeeded, "Code review completed"),
                    locatedPython := true, executedScript := true,
                    envWritten := written, execEnv := some envVars }

/-! ## DiffBudgeter (modelled from the spec, section 4.1) -/

/-- Change type of a diff file (spec section 3, DiffChunk). -/
inductive ChangeType where
  | Added
  | Modified
  | Deleted
  | Renamed
deriving DecidableEq, Repr

/-- Modelled from the spec: review_code.py is absent from src/, so one
per-file section of the raw diff (the result of splitting the raw diff
at its file-boundary markers, spec section 4.1 first bullet) is taken
as the budgeter's input; the lexical split itself is abstracted since
the spec does not fix the marker text. -/
structure DiffFile where
  filePath : String
  changeType : ChangeType
  hunkText : String
  addedLines : Nat
  removedLines : Nat
deriving DecidableEq, Repr

/-- DiffChunk of spec section 3: one kept (possibly truncated) file of
the budgeted diff. -/
structure DiffChunk where
  filePath : String
  changeType : ChangeType
  hunkText : String
  addedLines : Nat
  removedLines : Nat
deriving DecidableEq, Repr

/-- Explicit truncation marker appended to a per-file hunk cut at
maxCharsPerFile (spec section 4.1 third bullet). -/
def truncationMarker : String := "\n... [diff truncated]"

/-- Longest prefix of whole lines whose total rendered length (with the
separating newlines) stays within the budget. -/
def takeLinesWithin : List String → Nat → List String
  | [], _ => []
  | l :: ls, budget =>
      if l.length ≤ budget then l :: takeLinesWithin ls (budget - (l.length + 1))
      else []

/-- Splits a character list into lines at newline characters; the
accumulator holds the current line reversed. -/
def splitLinesAux : List Char → List Char → List String
  | [], acc => [String.mk acc.reverse]
  | c :: cs, acc =>
      if c = '\n' then String.mk acc.reverse :: splitLinesAux cs []
      else splitLinesAux cs (c :: acc)

/-- Splits a string into its lines. -/
def splitLines (s : String) : List String := splitLinesAux s.toList []

/-- Modelled from the spec: hunk text longer than maxChars characters is
truncated at a line boundary (never mid-line) with an explicit
truncation marker appended (spec section 4.1); returns the kept text
and whether truncation occurred. -/
def truncateAtLines (s : String) (maxChars : Nat) : String × Bool :=
  if s.length ≤ maxChars then (s, false)
  else
    (String.intercalate "\n" (takeLinesWithin (splitLines s) maxChars)
      ++ truncationMarker, true)

/-- Result of budgeting: the kept chunks, the file paths recorded as
omitted (so the caller can report how many of the total files were
reviewed), and the truncation flag. -/
structure BudgetResult where
  chunks : List DiffChunk
  omittedFiles : List String
  truncated : Bool
deriving DecidableEq, Repr

/-- Applies the per-file character cap to one kept file. -/
def budgetFile (f : DiffFile) (maxCharsPerFile : Nat) : DiffChunk × Bool :=
  let r := truncateAtLines f.hunkText maxCharsPerFile
  ({ filePath := f.filePath, changeType := f.changeType, hunkText := r.1,
     addedLines := f.addedLines, removedLines := f.removedLines }, r.2)

/-- Modelled from the spec: the running total across kept files is
capped at the remaining budget; once the cap is reached, the remaining
files are dropped entirely with the same omission bookkeeping (spec
section 4.1 fourth bullet). -/
def budgetKept : List DiffFile → Nat → Nat → List DiffChunk × List String × Bool
  | [], _, _ => ([], [], false)
  | f :: fs, maxCharsPerFile, remaining =>
      let c := budgetFile f maxCharsPerFile
      if c.1.hunkText.length ≤ remaining then
        let rest := budgetKept fs maxCharsPerFile (remaining - c.1.hunkText.length)
        (c.1 :: rest.1, rest.2.1, c.2 || rest.2.2)
      else
        ([], (f :: fs).map (fun g => g.filePath), true)

/-- Modelled from the spec: budget(rawDiff, maxFiles, maxCharsPerFile,
maxTotalChars) keeps the first maxFiles files, drops files beyond that
bound whole, truncates kept files at maxCharsPerFile, caps the running
total at maxTotalChars, and records every dropped file as omitted
(spec section 4.1). -/
def budget (files : List DiffFile) (maxFiles maxCharsPerFile maxTotalChars : Nat) :
    BudgetResult :=
  let kept := files.take maxFiles
  let beyond := files.drop maxFiles
  let r := budgetKept kept maxCharsPerFile maxTotalChars
  { chunks := r.1,
    omittedFiles := r.2.1 ++ beyond.map (fun g => g.filePath),
    truncated := r.2.2 || !beyond.isEmpty }

/-- Identity embedding of an untruncated file into a chunk. -/
def fileChunk (f : DiffFile) : DiffChunk :=
  { filePath := f.filePath, changeType := f.changeType, hunkText := f.hunkText,
    addedLines := f.addedLines, removedLines := f.removedLines }

/-- Length of a file's hunk text after per-file truncation. -/
def truncLen (f : DiffFile) (maxCharsPerFile : Nat) : Nat :=
  (truncateAtLines f.hunkText maxCharsPerFile).1.length

/-! ## ContextDetector (modelled from the spec, section 4.2) -/

/-- Language tags of the static extension table (README language table). -/
inductive LanguageTag where
  | python
  | javascript
  | csharp
  | java
  | go
  | rust
  | cpp
  | ruby
  | php
  | swift
  | sql
  | shell
  | config
deriving DecidableEq, Repr

/-- Framework tags of the static keyword table (README framework table). -/
inductive FrameworkTag where
  | react
  | vue
  | angular
  | svelte
  | fastapi
  | flask
  | express
  | spring
  | aspnet
deriving DecidableEq, Repr

/-- ReviewContext of spec section 3: derived once per review. -/
structure ReviewContext where
  languages : List LanguageTag
  frameworks : List FrameworkTag
  totalFiles : Nat
  totalChars : Nat
  truncated : Bool
deriving DecidableEq, Repr

/-- Tests whether the needle is a prefix-aligned match of the haystack. -/
def leadsWith : List Char → List Char → Bool
  | [], _ => true
  | _ :: _, [] => false
  | n :: ns, h :: hs => n = h && leadsWith ns hs

/-- Substring test over character lists. -/
def containsList : List Char → List Char → Bool
  | [], needle => needle.isEmpty
  | h :: t, needle => leadsWith needle (h :: t) || containsList t needle

/-- Case-insensitive substring search used for framework detection
(spec section 4.2 second bullet). -/
def containsSub (hay needle : String) : Bool :=
  containsList hay.toLower.toList needle.toLower.toList

/-- Modelled from the spec: static extension-to-tag table (spec section
4.2 first bullet; entries from the README language table). -/
def extensionTable : List (String × LanguageTag) :=
  [(".py", LanguageTag.python),
   (".js", LanguageTag.javascript), (".ts", LanguageTag.javascript),
   (".jsx", LanguageTag.javascript), (".tsx", LanguageTag.javascript),
   (".cs", LanguageTag.csharp),
   (".java", LanguageTag.java), (".kt", LanguageTag.java),
   (".go", LanguageTag.go),
   (".rs", LanguageTag.rust),
   (".c", LanguageTag.cpp), (".cpp", LanguageTag.cpp), (".h", LanguageTag.cpp),
   (".rb", LanguageTag.ruby),
   (".php", LanguageTag.php),
   (".swift", LanguageTag.swift),
   (".sql", LanguageTag.sql),
   (".sh", LanguageTag.shell), (".bash", LanguageTag.shell), (".ps1", LanguageTag.shell),
   (".yaml", LanguageTag.config), (".json", LanguageTag.config),
   (".xml", LanguageTag.config), (".tf", LanguageTag.config)]

/-- Modelled from the spec: static keyword-to-tag table (spec section
4.2 second bullet; entries from the README framework table). -/
def keywordTable : List (String × FrameworkTag) :=
  [("react", FrameworkTag.react), (".jsx", FrameworkTag.react), (".tsx", FrameworkTag.react),
   ("vue", FrameworkTag.vue), (".vue", FrameworkTag.vue),
   ("@angular", FrameworkTag.angular),
   ("svelte", FrameworkTag.svelte), (".svelte", FrameworkTag.svelte),
   ("fastapi", FrameworkTag.fastapi),
   ("flask", FrameworkTag.flask),
   ("express", FrameworkTag.express),
   ("spring", FrameworkTag.spring),
   ("asp.net", FrameworkTag.aspnet), ("webapi", FrameworkTag.aspnet)]

/-- Modelled from the spec: detect(chunks) derives language tags from
file extensions and framework tags from case-insensitive keyword search
over hunk text and file paths; unknown extensions yield no tag (spec
section 4.2).  The truncated field is filled in by the pipeline from
the budgeter's flag. -/
def detect (chunks : List DiffChunk) : ReviewContext :=
  { languages :=
      (extensionTable.filterMap (fun e =>
        if chunks.any (fun c => c.filePath.endsWith e.1) then some e.2 else none)).eraseDups,
    frameworks :=
      (keywordTable.filterMap (fun e =>
        if chunks.any (fun c =>
            containsSub (c.filePath ++ "\n" ++ c.hunkText) e.1) then some e.2 else none)).eraseDups,
    totalFiles := chunks.length,
    totalChars := (chunks.map (fun c => c.hunkText.length)).sum,
    truncated := false }

/-! ## SkillLoader (modelled from the spec, section 4.3) -/

/-- SkillDocument of spec section 3. -/
structure SkillDocument where
  id : String
  content : String
deriving DecidableEq, Repr

/-- Always-on core guidance document (SKILL.md in the README table). -/
def coreDoc : SkillDocument :=
  { id := "SKILL", content := "Core review process, output format, PR scope rules" }

/-- Cross-cutting security document, always included. -/
def securityDoc : SkillDocument :=
  { id := "security", content := "OWASP Top 10, injection, crypto, auth, data exposure" }

/-- Cross-cutting architecture document, always included. -/
def architectureDoc : SkillDocument :=
  { id := "architecture", content := "SOLID, design patterns, dependencies" }

/-- Cross-cutting performance document, always included. -/
def performanceDoc : SkillDocument :=
  { id := "performance", content := "Complexity, queries, memory, caching" }

/-- Frontend framework document (React/Vue/Angular/Svelte). -/
def frontendDoc : SkillDocument :=
  { id := "frontend", content := "Hooks, performance, accessibility, state management" }

/-- Backend framework document (FastAPI/Flask/Express/Spring/ASP.NET). -/
def backendDoc : SkillDocument :=
  { id := "backend", content := "API design, middleware, auth patterns" }

/-- Modelled from the spec: per-language document mapping (README skill
table); languages reviewed with general best practices only have no
dedicated document, exercising the missing-document-is-skipped rule of
spec section 4.3. -/
def langDoc : LanguageTag → Option SkillDocument
  | LanguageTag.python => some { id := "python", content := "PEP 8, type hints, async patterns, testing" }
  | LanguageTag.javascript => some { id := "javascript", content := "Modern ES, async await, error handling" }
  | LanguageTag.csharp => some { id := "csharp", content := "LINQ, async await, null safety, DI, dotnet patterns" }
  | LanguageTag.java => some { id := "java", content := "Streams, Optional, Spring patterns" }
  | LanguageTag.go => some { id := "go", content := "Error handling, concurrency, interfaces" }
  | LanguageTag.rust => some { id := "rust", content := "Ownership, error handling, unsafe code" }
  | LanguageTag.cpp => some { id := "cpp", content := "Memory management, RAII, modern cpp" }
  | _ => none

/-- Modelled from the spec: per-framework document mapping (README skill
table); several tags share a document, exercising the
no-duplicate-inclusion rule of spec section 4.3. -/
def fwDoc : FrameworkTag → Option SkillDocument
  | FrameworkTag.react => some frontendDoc
  | FrameworkTag.vue => some frontendDoc
  | FrameworkTag.angular => some frontendDoc
  | FrameworkTag.svelte => some frontendDoc
  | _ => some backendDoc

/-- Fixed language order used for stable skill ordering (spec section
4.3 first bullet: order of a fixed language list, not detection
order). -/
def orderedLanguages : List LanguageTag :=
  [LanguageTag.python, LanguageTag.javascript, LanguageTag.csharp,
   LanguageTag.java, LanguageTag.go, LanguageTag.rust, LanguageTag.cpp,
   LanguageTag.ruby, LanguageTag.php, LanguageTag.swift, LanguageTag.sql,
   LanguageTag.shell, LanguageTag.config]

/-- Fixed framework order used for stable skill ordering. -/
def orderedFrameworks : List FrameworkTag :=
  [FrameworkTag.react, FrameworkTag.vue, FrameworkTag.angular,
   FrameworkTag.svelte, FrameworkTag.fastapi, FrameworkTag.flask,
   FrameworkTag.express, FrameworkTag.spring, FrameworkTag.aspnet]

/-- Removes later occurrences of an id already seen, keeping the first
occurrence of each id (spec section 4.3: no duplicate inclusion). -/
def dedupById : List SkillDocument → List SkillDocument
  | [] => []
  | d :: ds => d :: (dedupById ds).filter (fun e => e.id ≠ d.id)

/-- Modelled from the spec: load(context) returns core guidance first,
then one document per detected language in fixed-list order, then one
per detected framework, then the always-on cross-cutting documents
(security, architecture, performance), with duplicates removed (spec
sections 3 and 4.3). -/
def load (ctx : ReviewContext) : List SkillDocument :=
  dedupById
    ([coreDoc]
      ++ (orderedLanguages.filter (fun t => ctx.languages.contains t)).filterMap langDoc
      ++ (orderedFrameworks.filter (fun t => ctx.frameworks.contains t)).filterMap fwDoc
      ++ [securityDoc, architectureDoc, performanceDoc])

/-! ## PromptAssembler (modelled from the spec, section 4.4) -/

/-- PromptPayload of spec section 3. -/
structure PromptPayload where
  instructions : String
  diff : String
  model : String
deriving DecidableEq, Repr

/-- Process-wide character budget (README: diffs are truncated to 400K
chars); read-only after initialization per spec section 3. -/
def configMaxTotalChars : Nat := 400000

/-- Fixed output-format specification appended to skill-derived
instructions (spec section 4.4 second bullet). -/
def outputFormatSpec : String :=
  "\n\nReturn a structured JSON object with fields summary, assessment, filesReviewed and findings; every finding has title, severity, file, line, problem, impact, solution and category."

/-- Renders the change-type annotation of a chunk. -/
def changeTypeName : ChangeType → String
  | ChangeType.Added => "Added"
  | ChangeType.Modified => "Modified"
  | ChangeType.Deleted => "Deleted"
  | ChangeType.Renamed => "Renamed"

/-- Diff text of one chunk, annotated per file with change type and
line counts (spec section 4.4 third bullet). -/
def renderChunk (c : DiffChunk) : String :=
  "### File: " ++ c.filePath ++ " (" ++ changeTypeName c.changeType
    ++ ", +" ++ toString c.addedLines ++ "/-" ++ toString c.removedLines ++ ")\n"
    ++ c.hunkText

/-- Skill-derived instruction block: concatenation of the skill
documents in loaded order, each preceded by an identifying header, plus
the fixed output-format specification (spec section 4.4 second
bullet). -/
def skillInstructions (skills : Option (List SkillDocument)) : String :=
  String.intercalate "\n\n"
      ((skills.getD []).map (fun d => "## Skill: " ++ d.id ++ "\n\n" ++ d.content))
    ++ outputFormatSpec

/-- Modelled from the spec: assemble(skills, customInstructions, chunks,
model) builds the final payload; a non-empty customInstructions becomes
the entire instruction block and skills is ignored entirely (spec
section 4.4 first bullet).  The global character budget is enforced
again defensively: an over-budget diff portion is truncated further at
a line boundary (never the instructions) and the second component flags
that assembly-time truncation (spec section 4.4 fourth bullet). -/
def assemble (skills : Option (List SkillDocument)) (customInstructions : Option String)
    (chunks : List DiffChunk) (model : String) : PromptPayload × Bool :=
  let custom := customInstructions.getD ""
  let instructions := if custom = "" then skillInstructions skills else custom
  let diff := String.intercalate "\n\n" (chunks.map renderChunk)
  if instructions.length + diff.length ≤ configMaxTotalChars then
    ({ instructions := instructions, diff := diff, model := model }, false)
  else
    ({ instructions := instructions,
       diff := String.intercalate "\n"
           (takeLinesWithin (splitLines diff) (configMaxTotalChars - instructions.length))
         ++ truncationMarker,
       model := model }, true)

/-! ## ReviewInvoker (modelled from the spec, section 4.5) -/

/-- Failure conditions of one backend attempt (spec section 4.5:
backend unavailable, non-zero exit or status, timeout; the per-attempt
timeout is absorbed into the attempt outcome). -/
inductive BackendError where
  | unavailable
  | nonZeroExit
  | timeout
deriving DecidableEq, Repr

/-- Outcome of one backend attempt. -/
inductive AttemptResult where
  | ok (raw : String)
  | err (e : BackendError)
deriving DecidableEq, Repr

/-- Abstract backend of spec section 6: an invocation mechanism whose
outcome is determined by the payload it is given. -/
structure Backend where
  name : String
  run : PromptPayload → AttemptResult

/-- States of the invoker state machine (spec section 4.5):
Idle to PrimaryAttempt to Success, or through FallbackAttempt to
Success or Failed.  Success records which backend served the request
(the side effect required by spec section 4.5 last bullet). -/
inductive InvokeState where
  | Idle
  | PrimaryAttempt
  | FallbackAttempt
  | Success (raw : String) (backend : String)
  | Failed
deriving DecidableEq, Repr

/-- Modelled from the spec: the sequence of states the invoker passes
through for one payload (spec section 4.5 state machine).  A primary
failure transitions to a single fallback attempt when a fallback is
configured and to Failed otherwise; a fallback failure is terminal. -/
def invokeTrace (payload : PromptPayload) (primary : Backend)
    (fallback : Option Backend) : List InvokeState :=
  InvokeState.Idle :: InvokeState.PrimaryAttempt ::
    (match primary.run payload with
     | AttemptResult.ok raw => [InvokeState.Success raw primary.name]
     | AttemptResult.err _ =>
        match fallback with
        | none => [InvokeState.Failed]
        | some fb =>
            InvokeState.FallbackAttempt ::
              (match fb.run payload with
               | AttemptResult.ok raw => [InvokeState.Success raw fb.name]
               | AttemptResult.err _ => [InvokeState.Failed]))

/-- Modelled from the spec: invoke(payload, primary, fallback) returns
the raw response and the name of the backend that served it, or none
for the terminal Failed state. -/
def invoke (payload : PromptPayload) (primary : Backend)
    (fallback : Option Backend) : Option (String × String) :=
  match primary.run payload with
  | AttemptResult.ok raw => some (raw, primary.name)
  | AttemptResult.err _ =>
      match fallback with
      | none => none
      | some fb =>
          match fb.run payload with
          | AttemptResult.ok raw => some (raw, fb.name)
          | AttemptResult.err _ => none

/-! ## ResponseParser (modelled from the spec, section 4.6) -/

/-- Overall assessment enum of ReviewResult (spec section 3). -/
inductive Assessment where
  | Approve
  | RequestChanges
  | NeedsDiscussion
  | Unknown
deriving DecidableEq, Repr

/-- Finding severity enum (spec section 3). -/
inductive Severity where
  | Critical
  | High
  | Suggestion
  | Question
deriving DecidableEq, Repr

/-- Finding of spec section 3. -/
structure Finding where
  title : String
  severity : Severity
  filePath : String
  lineRef : Option Int
  problem : String
  impact : Option String
  solution : Option String
  category : Option String
deriving DecidableEq, Repr

/-- Per-file summary listed in filesReviewed (spec section 3; fields
from the README review-output table). -/
structure FileSummary where
  file : String
  changeType : String
  linesChanged : String
deriving DecidableEq, Repr

/-- ReviewResult of spec section 3. -/
structure ReviewResult where
  summary : String
  assessment : Assessment
  filesReviewed : List FileSummary
  findings : List Finding
deriving DecidableEq, Repr

/-- Structured document values for the strict parse stage. -/
inductive Json where
  | null
  | bool (b : Bool)
  | num (n : Int)
  | str (s : String)
  | arr (xs : List Json)
  | obj (fields : List (String × Json))
deriving Inhabited, Repr

/-- Skips JSON whitespace. -/
def skipWs : List Char → List Char
  | [] => []
  | c :: cs =>
      if c = ' ' || c = '\n' || c = '\t' || c = '\r' then skipWs cs else c :: cs

/-- Reads the body of a quoted string after its opening quote, handling
backslash escapes; returns the decoded characters and the input after
the closing quote. -/
def readStringBody : List Char → Option (List Char × List Char)
  | [] => none
  | '"' :: rest => some ([], rest)
  | '\\' :: c :: rest =>
      (readStringBody rest).map (fun r =>
        (( if c = 'n' then '\n' else if c = 't' then '\t' else if c = 'r' then '\r' else c) :: r.1, r.2))
  | c :: rest => (readStringBody rest).map (fun r => (c :: r.1, r.2))

/-- Reads a run of decimal digits as a natural number. -/
def readDigits : List Char → Nat → Nat × List Char
  | c :: cs, acc =>
      if c.isDigit then readDigits cs (acc * 10 + (c.toNat - '0'.toNat))
      else (acc, c :: cs)
  | [], acc => (acc, [])

mutual

/-- Recursive-descent value parser with explicit fuel; fuel exhaustion
yields a parse failure, never divergence. -/
def parseValue : Nat → List Char → Option (Json × List Char)
  | 0, _ => none
  | fuel + 1, input =>
      match skipWs input with
      | [] => none
      | c :: cs =>
          if c = '\x7b' then
            match parseMembers fuel (skipWs cs) true with
            | some (fields, rest) => some (Json.obj fields, rest)
            | none => none
          else if c = '[' then
            match parseElems fuel (skipWs cs) true with
            | some (xs, rest) => some (Json.arr xs, rest)
            | none => none
          else if c = '"' then
            match readStringBody cs with
            | some (body, rest) => some (Json.str (String.mk body), rest)
            | none => none
          else if c = 't' then
            match cs with
            | 'r' :: 'u' :: 'e' :: rest => some (Json.bool true, rest)
            | _ => none
          else if c = 'f' then
            match cs with
            | 'a' :: 'l' :: 's' :: 'e' :: rest => some (Json.bool false, rest)
            | _ => none
          else if c = 'n' then
            match cs with
            | 'u' :: 'l' :: 'l' :: rest => some (Json.null, rest)
            | _ => none
          else if c = '-' then
            match cs with
            | d :: ds =>
                if d.isDigit then
                  let r := readDigits (d :: ds) 0
                  some (Json.num (-(Int.ofNat r.1)), r.2)
                else none
            | [] => none
          else if c.isDigit then
            let r := readDigits (c :: cs) 0
            some (Json.num (Int.ofNat r.1), r.2)
          else none

/-- Parses the members of an object up to and including its closing
brace; the flag marks whether we are at the first member. -/
def parseMembers : Nat → List Char → Bool → Option (List (String × Json) × List Char)
  | 0, _, _ => none
  | fuel + 1, input, isFirst =>
      match skipWs input with
      | [] => none
      | c :: cs =>
          if c = '\x7d' then some ([], cs)
          else
            match
              (if isFirst then some (skipWs (c :: cs))
               else if c = ',' then some (skipWs cs) else none) with
            | none => none
            | some afterSep =>
                match afterSep with
                | '"' :: scs =>
                    match readStringBody scs with
                    | none => none
                    | some (key, afterKey) =>
                        match skipWs afterKey with
                        | ':' :: vcs =>
                            match parseValue fuel vcs with
                            | none => none
                            | some (v, afterVal) =>
                                match parseMembers fuel afterVal false with
                                | none => none
                                | some (fields, rest) =>
                                    some ((String.mk key, v) :: fields, rest)
                        | _ => none
                | _ => none

/-- Parses the elements of an array up to and including its closing
bracket; the flag marks whether we are at the first element. -/
def parseElems : Nat → List Char → Bool → Option (List Json × List Char)
  | 0, _, _ => none
  | fuel + 1, input, isFirst =>
      match skipWs input with
      | [] => none
      | c :: cs =>
          if c = ']' then some ([], cs)
          else
            match
              (if isFirst then some (c :: cs)
               else if c = ',' then some cs else none) with
            | none => none
            | some afterSep =>
                match parseValue fuel afterSep with
                | none => none
                | some (v, afterVal) =>
                    match parseElems fuel afterVal false with
                    | none => none
                    | some (xs, rest) => some (v :: xs, rest)

end

/-- Parses a whole string as one JSON document with nothing but
whitespace after it. -/
def parseJson (s : String) : Option Json :=
  let cs := s.toList
  match parseValue (cs.length + 1) cs with
  | some (j, rest) => if skipWs rest = [] then some j else none
  | none => none

/-- Field lookup in a JSON object. -/
def getField (j : Json) (k : String) : Option Json :=
  match j with
  | Json.obj fields => fields.lookup k
  | _ => none

/-- String content of a JSON value. -/
def asString : Json → Option String
  | Json.str s => some s
  | _ => none

/-- Array content of a JSON value. -/
def asArr : Json → Option (List Json)
  | Json.arr xs => some xs
  | _ => none

/-- Strict decoding of the assessment enum from its wire name. -/
def decodeAssessment (s : String) : Option Assessment :=
  if s = "Approve" then some Assessment.Approve
  else if s = "RequestChanges" then some Assessment.RequestChanges
  else if s = "NeedsDiscussion" then some Assessment.NeedsDiscussion
  else if s = "Unknown" then some Assessment.Unknown
  else none

/-- Strict decoding of the severity enum from its wire name. -/
def decodeSeverity (s : String) : Option Severity :=
  if s = "Critical" then some Severity.Critical
  else if s = "High" then some Severity.High
  else if s = "Suggestion" then some Severity.Suggestion
  else if s = "Question" then some Severity.Question
  else none

/-- Optional string field: absent or null yields none. -/
def optStringField (j : Json) (k : String) : Option String :=
  match getField j k with
  | some (Json.str s) => some s
  | _ => none

/-- Decodes one finding of the wire schema (spec section 6: title,
severity, file, line, problem, impact, solution, category). -/
def decodeFinding (j : Json) : Option Finding :=
  match (getField j "title").bind asString with
  | none => none
  | some title =>
      match ((getField j "severity").bind asString).bind decodeSeverity with
      | none => none
      | some severity =>
          match (getField j "file").bind asString with
          | none => none
          | some file =>
              match (getField j "problem").bind asString with
              | none => none
              | some problem =>
                  some { title := title, severity := severity, filePath := file,
                         lineRef := match getField j "line" with
                           | some (Json.num n) => some n
                           | _ => none,
                         problem := problem,
                         impact := optStringField j "impact",
                         solution := optStringField j "solution",
                         category := optStringField j "category" }

/-- Decodes one entry of filesReviewed; a bare string is taken as the
file path, an object through its file field. -/
def decodeFileSummary (j : Json) : Option FileSummary :=
  match j with
  | Json.str s => some { file := s, changeType := "", linesChanged := "" }
  | Json.obj _ =>
      match (getField j "file").bind asString with
      | some f => some { file := f,
                         changeType := (optStringField j "changeType").getD "",
                         linesChanged := (optStringField j "linesChanged").getD "" }
      | none => none
  | _ => none

/-- Decodes a parsed JSON document against the wire schema of spec
section 6 (summary, assessment, filesReviewed, findings). -/
def decodeReviewResult (j : Json) : Option ReviewResult :=
  match (getField j "summary").bind asString with
  | none => none
  | some summary =>
      match ((getField j "assessment").bind asString).bind decodeAssessment with
      | none => none
      | some assessment =>
          match ((getField j "filesReviewed").bind asArr).bind
              (fun xs => xs.mapM decodeFileSummary) with
          | none => none
          | some files =>
              match ((getField j "findings").bind asArr).bind
                  (fun xs => xs.mapM decodeFinding) with
              | none => none
              | some findings =>
                  some { summary := summary, assessment := assessment,
                         filesReviewed := files, findings := findings }

/-- Stage 1 of spec section 4.6: strict parse of the raw text against
the exact schema. -/
def strictStage (raw : String) : Option ReviewResult :=
  (parseJson raw).bind decodeReviewResult

/-- Scans the raw text (outside string literals) for brackets and
braces left open at the point of truncation; returns the stack of open
brackets, innermost first, and whether the text ends inside a string
literal. -/
def openBrackets : List Char → List Char → Bool → List Char × Bool
  | [], stack, inStr => (stack, inStr)
  | '\\' :: _ :: cs, stack, true => openBrackets cs stack true
  | c :: cs, stack, true =>
      if c = '"' then openBrackets cs stack false else openBrackets cs stack true
  | c :: cs, stack, false =>
      if c = '"' then openBrackets cs stack true
      else if c = '\x7b' || c = '[' then openBrackets cs (c :: stack) false
      else if c = '\x7d' || c = ']' then
        openBrackets cs (match stack with | [] => [] | _ :: t => t) false
      else openBrackets cs stack false

/-- Structural repair of spec section 4.6 stage 2: closes an unfinished
string literal and balances every unmatched bracket or brace by closing
it at the point of truncation. -/
def repairText (raw : String) : String :=
  let r := openBrackets raw.toList [] false
  raw ++ (if r.2 then "\"" else "")
    ++ String.mk (r.1.map (fun c => if c = '\x7b' then '\x7d' else ']'))

/-- Stage 2 of spec section 4.6: repair then retry the strict parse. -/
def repairStage (raw : String) : Option ReviewResult :=
  strictStage (repairText raw)

/-- Severity keywords used as heuristic markers by the extraction
stage. -/
def severityKeywords : List (String × Severity) :=
  [("Critical", Severity.Critical), ("High", Severity.High),
   ("Suggestion", Severity.Suggestion), ("Question", Severity.Question)]

/-- Stage 3 heuristic of spec section 4.6: scan the raw text line by
line for severity keywords and synthesize a finding per match. -/
def extractFindings (raw : String) : List Finding :=
  (splitLines raw).filterMap (fun line =>
    (severityKeywords.find? (fun kw => containsList line.toList kw.1.toList)).map
      (fun kw =>
        { title := line, severity := kw.2, filePath := "",
          lineRef := none, problem := line, impact := none,
          solution := none, category := none }))

/-- Fixed notice used as the summary when full structured parsing
failed (spec section 4.6 stage 3). -/
def parseFailureNotice : String :=
  "Structured parsing of the model response failed; findings below were extracted heuristically from the raw text."

/-- Stage 3 of spec section 4.6: pattern-based extraction; always
produces a structurally valid ReviewResult, possibly with zero
findings. -/
def extractionStage (raw : String) : ReviewResult :=
  { summary := parseFailureNotice, assessment := Assessment.Unknown,
    filesReviewed := [], findings := extractFindings raw }

/-- Absolute fallback result: Unknown assessment and an empty findings
sequence (spec section 4.6 contract). -/
def fallbackReview : ReviewResult :=
  { summary := parseFailureNotice, assessment := Assessment.Unknown,
    filesReviewed := [], findings := [] }

/-- Modelled from the spec: parse(raw) tries the strict stage, then the
repair stage, then the extraction stage, each only if the prior stage
failed; no stage propagates an exception, so parse is a total
function (spec section 4.6). -/
def parseResponse (raw : String) : ReviewResult :=
  match strictStage raw with
  | some r => r
  | none =>
      match repairStage raw with
      | some r => r
      | none => extractionStage raw

/-! ## Review pipeline composition (spec sections 2 and 7) -/

/-- Configuration handed to the core pipeline (spec section 6). -/
structure ReviewConfig where
  maxFiles : Nat
  maxCharsPerFile : Nat
  maxTotalChars : Nat
  model : String
  customInstructions : Option String
deriving Repr

/-- Successful pipeline output: the parsed review plus the degradation
metadata (truncation flag, omitted files, serving backend) required by
spec section 7. -/
structure ReviewOutput where
  result : ReviewResult
  truncated : Bool
  omittedFiles : List String
  servedBy : String
deriving Repr

/-- The only failure the pipeline surfaces to its caller. -/
inductive PipelineFailure where
  | invokerFailed
deriving DecidableEq, Repr

/-- Budgeting, detection, skill loading and assembly for one review;
returns the payload and the assembly-time truncation flag. -/
def assembledPayload (cfg : ReviewConfig) (files : List DiffFile) :
    PromptPayload × Bool :=
  let br := budget files cfg.maxFiles cfg.maxCharsPerFile cfg.maxTotalChars
  let ctx := { detect br.chunks with truncated := br.truncated }
  assemble (some (load ctx)) cfg.customInstructions br.chunks cfg.model

/-- Modelled from the spec: the sequential review pipeline of spec
section 2 (budget, detect, load, assemble, invoke, parse).  Only the
invoker's terminal Failed state becomes an error; truncation, omission
and parse degradation are carried as metadata on the ok result (spec
section 7). -/
def reviewPipeline (cfg : ReviewConfig) (files : List DiffFile)
    (primary : Backend) (fallback : Option Backend) :
    Except PipelineFailure ReviewOutput :=
  let br := budget files cfg.maxFiles cfg.maxCharsPerFile cfg.maxTotalChars
  let pd := assembledPayload cfg files
  match invoke pd.1 primary fallback with
  | none => Except.error PipelineFailure.invokerFailed
  | some served =>
      Except.ok { result := parseResponse served.1,
                  truncated := br.truncated || pd.2,
                  omittedFiles := br.omittedFiles,
                  servedBy := served.2 }

/-! ## Concrete sample data used by witnesses and counterexamples -/

/-- Sample two-file diff. -/
def sampleFiles : List DiffFile :=
  [{ filePath := "a.py", changeType := ChangeType.Added, hunkText := "aa\nbb",
     addedLines := 2, removedLines := 0 },
   { filePath := "b.py", changeType := ChangeType.Modified, hunkText := "cc",
     addedLines := 1, removedLines := 1 }]

/-- Custom instruction text used by the witness. -/
def sampleCustom : String := "Review only for security issues."

/-- Every document the loader can draw from, in priority order. -/
def skillPool : List SkillDocument :=
  [coreDoc] ++ orderedLanguages.filterMap langDoc
    ++ orderedFrameworks.filterMap fwDoc
    ++ [securityDoc, architectureDoc, performanceDoc]

/-- Sample payload used by invoker witnesses. -/
def samplePayload : PromptPayload :=
  { instructions := "inst", diff := "diff", model := "claude-sonnet-4.5" }

/-- Backend that always fails as unavailable. -/
def failingPrimary : Backend :=
  { name := "copilot-cli", run := fun _ => AttemptResult.err BackendError.unavailable }

/-- Fallback backend that always times out. -/
def failingFallback : Backend :=
  { name := "models-api", run := fun _ => AttemptResult.err BackendError.timeout }

/-- Sample pipeline configuration. -/
def sampleConfig : ReviewConfig :=
  { maxFiles := 50, maxCharsPerFile := 10000, maxTotalChars := 400000,
    model := "claude-sonnet-4.5", customInstructions := none }

/-- Sample task inputs: only the required githubPat is supplied. -/
def sampleInputs : TaskInputs :=
  { githubPat := some "github_pat_x", adoPat := none, copilotModel := none,
    maxFiles := none, maxLinesPerFile := none, customPrompt := none,
    promptFile := none, debug := none, continueOnError := none }

/-- Sample agent state with no Azure DevOps access token available. -/
def sampleEnvNoToken : TaskEnv :=
  { systemAccessToken := "", whichPython3 := "/usr/bin/python3",
    whichPython := none, execOutcome := Except.ok 0 }

/-- Sample agent state where the review script runs and exits with 3. -/
def sampleEnvExecFail : TaskEnv :=
  { systemAccessToken := "tok", whichPython3 := "/usr/bin/python3",
    whichPython := none, execOutcome := Except.ok 3 }

/-- C9: run never lets an exception escape; every execution path
terminates by recording a task result, so the promise never rejects. -/
theorem run_always_sets_result (inp : TaskInputs) (env : TaskEnv) :
    ∃ r m, (run inp env).result = some (r, m) := by
  unfold run
  rcases inp.githubPat with _ | g
  · exact ⟨_, _, rfl⟩
  · dsimp only
    split
    · exact ⟨_, _, rfl⟩
    · split
      · exact ⟨_, _, rfl⟩
      · split
        · exact ⟨_, _, rfl⟩
        · split
          · split
            · exact ⟨_, _, rfl⟩
            · exact ⟨_, _, rfl⟩
          · exact ⟨_, _, rfl⟩

/-- C8: with no System.AccessToken and no adoPat, run fails with the
token guidance message before locating Python or executing the script. -/
theorem run_missing_token_fails_early (inp : TaskInputs) (env : TaskEnv) (g : String)
    (hpat : inp.githubPat = some g)
    (hado : inp.adoPat = none ∨ inp.adoPat = some "")
    (hsys : env.systemAccessToken = "") :
    (run inp env).result = some (TaskResult.Failed, noTokenMessage) ∧
    (run inp env).locatedPython = false ∧
    (run inp env).executedScript = false ∧
    (run inp env).envWritten = [] ∧
    (run inp env).execEnv = none := by
  have hado2 : getInputOr inp.adoPat "" = "" := by
    rcases hado with h | h <;> simp [h, getInputOr, jsOr]
  simp [run, hpat, hado2, hsys, jsOr]

theorem run_missing_token_fails_early_witness :
    (run sampleInputs sampleEnvNoToken).result = some (TaskResult.Failed, noTokenMessage) ∧
    (run sampleInputs sampleEnvNoToken).locatedPython = false ∧
    (run sampleInputs sampleEnvNoToken).executedScript = false ∧
    (run sampleInputs sampleEnvNoToken).envWritten = [] ∧
    (run sampleInputs sampleEnvNoToken).execEnv = none :=
  run_missing_token_fails_early sampleInputs sampleEnvNoToken "github_pat_x" rfl
    (Or.inl rfl) rfl

/-- C10: with the optional inputs absent, the environment passed to the
review script carries the documented defaults, and GH_TOKEN and
GITHUB_TOKEN both carry the required githubPat. -/
theorem run_absent_inputs_default_env (inp : TaskInputs) (env : TaskEnv) (g : String)
    (hpat : inp.githubPat = some g)
    (hmf : inp.maxFiles = none) (hml : inp.maxLinesPerFile = none)
    (hdb : inp.debug = none) (hco : inp.continueOnError = none)
    (hsys : env.systemAccessToken ≠ "")
    (hpy : env.whichPython3 ≠ "") :
    ∃ l, (run inp env).execEnv = some l ∧
      ("INPUT_MAX_FILES", "50") ∈ l ∧
      ("INPUT_MAX_LINES_PER_FILE", "1000") ∈ l ∧
      ("INPUT_DEBUG", "false") ∈ l ∧
      ("INPUT_CONTINUE_ON_ERROR", "true") ∈ l ∧
      ("GH_TOKEN", g) ∈ l ∧
      ("GITHUB_TOKEN", g) ∈ l := by
  have hst : jsOr (jsOr env.systemAccessToken (getInputOr inp.adoPat "")) "" =
      env.systemAccessToken := by
    simp [jsOr, hsys]
  have hwp : whichPythonPath env = some env.whichPython3 := by
    simp [whichPythonPath, hpy]
  refine ⟨envVarsOf g (getInputOr inp.adoPat "") (getInputOr inp.copilotModel "")
      "50" "1000" (getInputOr inp.customPrompt "") (getInputOr inp.promptFile "")
      "false" "true" env.systemAccessToken, ?_, ?_, ?_, ?_, ?_, ?_, ?_⟩
  · unfold run
    rw [hpat]
    dsimp only
    rw [hmf, hml, hdb, hco, hst, hwp]
    dsimp only [getInputOr]
    rw [if_neg hsys]
    rcases env.execOutcome with msg | c
    · rfl
    · dsimp only
      split <;> [split <;> rfl; rfl]
  all_goals simp [envVarsOf]

theorem run_absent_inputs_default_env_witness :
    ∃ l, (run sampleInputs sampleEnvExecFail).execEnv = some l ∧
      ("INPUT_MAX_FILES", "50") ∈ l ∧
      ("INPUT_MAX_LINES_PER_FILE", "1000") ∈ l ∧
      ("INPUT_DEBUG", "false") ∈ l ∧
      ("INPUT_CONTINUE_ON_ERROR", "true") ∈ l ∧
      ("GH_TOKEN", "github_pat_x") ∈ l ∧
      ("GITHUB_TOKEN", "github_pat_x") ∈ l :=
  run_absent_inputs_default_env sampleInputs sampleEnvExecFail "github_pat_x"
    rfl rfl rfl rfl rfl (by decide) (by decide)

/-- C1 counterexample: the task result can be Failed although the
review script was never executed, so a non-zero script exit code is not
the only condition mapped to a failing task result. -/
theorem task_failed_without_script_exit :
    (run sampleInputs sampleEnvNoToken).result = some (TaskResult.Failed, noTokenMessage) ∧
    (run sampleInputs sampleEnvNoToken).executedScript = false := by
  constructor <;> rfl

/-! ## DiffBudgeter lemmas -/

/-- A file whose hunk fits the per-file cap passes through unchanged. -/
theorem budgetFile_no_trunc (f : DiffFile) (mcpf : Nat)
    (h : f.hunkText.length ≤ mcpf) : budgetFile f mcpf = (fileChunk f, false) := by
  simp [budgetFile, truncateAtLines, h, fileChunk]

/-- When the per-file-truncated texts all fit in the remaining budget,
every file is kept, nothing is omitted, and the flag records whether
any per-file truncation happened. -/
theorem budgetKept_fits (fs : List DiffFile) (mcpf : Nat) (rem : Nat)
    (h : ((fs.map (fun f => truncLen f mcpf)).sum ≤ rem)) :
    budgetKept fs mcpf rem =
      (fs.map (fun f => (budgetFile f mcpf).1), [],
       fs.any (fun f => (truncateAtLines f.hunkText mcpf).2)) := by
  induction fs generalizing rem with
  | nil => simp [budgetKept]
  | cons f fs ih =>
      have hsum : truncLen f mcpf + (fs.map (fun f => truncLen f mcpf)).sum ≤ rem := by
        simpa using h
      have h1 : (budgetFile f mcpf).1.hunkText.length ≤ rem := by
        show truncLen f mcpf ≤ rem
        omega
      have h2 : (fs.map (fun f => truncLen f mcpf)).sum ≤
          rem - (budgetFile f mcpf).1.hunkText.length := by
        show _ ≤ rem - truncLen f mcpf
        omega
      simp only [budgetKept, List.map_cons, List.any_cons]
      rw [if_pos h1, ih _ h2]
      rfl

/-- C4: a diff within all three limits is budgeted without truncation
and reconstructs the original file set exactly, and an empty diff is
not an error: it yields zero chunks. -/
theorem budget_under_limits_preserves_files :
    (∀ (files : List DiffFile) (maxFiles maxCharsPerFile maxTotalChars : Nat),
      files.length ≤ maxFiles →
      (∀ f ∈ files, f.hunkText.length ≤ maxCharsPerFile) →
      (files.map (fun f => f.hunkText.length)).sum < maxTotalChars →
      budget files maxFiles maxCharsPerFile maxTotalChars =
        { chunks := files.map fileChunk, omittedFiles := [], truncated := false }) ∧
    (∀ maxFiles maxCharsPerFile maxTotalChars : Nat,
      budget [] maxFiles maxCharsPerFile maxTotalChars =
        { chunks := [], omittedFiles := [], truncated := false }) := by
  constructor
  · intro files mf mcpf mtc hlen hper htot
    have htake : files.take mf = files := List.take_of_length_le hlen
    have hdrop : files.drop mf = [] := List.drop_eq_nil_of_le hlen
    have hlens : ∀ f ∈ files, truncLen f mcpf = f.hunkText.length := by
      intro f hf
      simp [truncLen, truncateAtLines, hper f hf]
    have hsum : ((files.map (fun f => truncLen f mcpf)).sum ≤ mtc) := by
      rw [List.map_congr_left hlens]
      omega
    have hkept := budgetKept_fits files mcpf mtc hsum
    simp only [budget]
    rw [htake, hdrop, hkept]
    have hchunks : files.map (fun f => (budgetFile f mcpf).1) = files.map fileChunk := by
      apply List.map_congr_left
      intro f hf
      rw [budgetFile_no_trunc f mcpf (hper f hf)]
    have hflag : (files.any (fun f => (truncateAtLines f.hunkText mcpf).2)) = false := by
      rw [List.any_eq_false]
      intro f hf
      simp [truncateAtLines, hper f hf]
    simp [hchunks, hflag]
  · intro mf mcpf mtc
    simp [budget, budgetKept]

theorem budget_under_limits_preserves_files_witness :
    budget sampleFiles 50 1000 400000 =
      { chunks := sampleFiles.map fileChunk, omittedFiles := [], truncated := false } :=
  budget_under_limits_preserves_files.1 sampleFiles 50 1000 400000 (by decide)
    (by decide) (by decide)

/-- C3 counterexample: a diff with more files than maxFiles where the
total-character cap also binds keeps fewer than maxFiles files, so the
first maxFiles files are not always exactly the kept set. -/
theorem budget_total_cap_drops_within_maxFiles :
    1 < sampleFiles.length ∧
    (budget sampleFiles 1 1000 1).chunks.map (fun c => c.filePath) ≠
      (sampleFiles.take 1).map (fun f => f.filePath) := by
  constructor
  · decide
  · decide

/-- C3 amended: when the total-character cap does not bind on the first
maxFiles files, a diff with more than maxFiles files keeps exactly the
first maxFiles files in original order; every file beyond the bound is
dropped whole and recorded as omitted. -/
theorem budget_keeps_first_maxFiles_within_total_cap
    (files : List DiffFile) (maxFiles maxCharsPerFile maxTotalChars : Nat)
    (hn : maxFiles < files.length)
    (hfit : (((files.take maxFiles).map (fun f => truncLen f maxCharsPerFile)).sum ≤
      maxTotalChars)) :
    (budget files maxFiles maxCharsPerFile maxTotalChars).chunks =
      (files.take maxFiles).map (fun f => (budgetFile f maxCharsPerFile).1) ∧
    (budget files maxFiles maxCharsPerFile maxTotalChars).chunks.length = maxFiles ∧
    (budget files maxFiles maxCharsPerFile maxTotalChars).chunks.map (fun c => c.filePath) =
      (files.take maxFiles).map (fun f => f.filePath) ∧
    (budget files maxFiles maxCharsPerFile maxTotalChars).omittedFiles =
      (files.drop maxFiles).map (fun f => f.filePath) ∧
    (budget files maxFiles maxCharsPerFile maxTotalChars).truncated = true := by
  have hkept := budgetKept_fits (files.take maxFiles) maxCharsPerFile maxTotalChars hfit
  have hbeyond : (files.drop maxFiles).isEmpty = false := by
    rcases h : files.drop maxFiles with _ | _
    · exfalso
      have := List.drop_eq_nil_iff.mp h
      omega
    · rfl
  have hb : budget files maxFiles maxCharsPerFile maxTotalChars =
      { chunks := (files.take maxFiles).map (fun f => (budgetFile f maxCharsPerFile).1),
        omittedFiles := (files.drop maxFiles).map (fun f => f.filePath),
        truncated := true } := by
    simp only [budget]
    rw [hkept]
    dsimp only
    rw [hbeyond]
    simp
  refine ⟨by rw [hb], ?_, ?_, by rw [hb], by rw [hb]⟩
  · rw [hb]
    dsimp only
    rw [List.length_map, List.length_take]
    omega
  · rw [hb]
    dsimp only
    rw [List.map_map]
    rfl

/-! ## PromptAssembler theorems -/

/-- C5: a non-empty customInstructions becomes the entire instruction
block and the supplied SkillSet contributes nothing to the payload. -/
theorem assemble_custom_overrides_skills
    (skills : Option (List SkillDocument)) (ci : String)
    (chunks : List DiffChunk) (model : String) (h : ci ≠ "") :
    (assemble skills (some ci) chunks model).1.instructions = ci ∧
    assemble skills (some ci) chunks model = assemble none (some ci) chunks model := by
  have h1 : ∀ sk : Option (List SkillDocument),
      (if (some ci).getD "" = "" then skillInstructions sk else (some ci).getD "") = ci :=
    fun sk => if_neg h
  constructor
  · unfold assemble
    dsimp only
    rw [h1]
    split <;> rfl
  · unfold assemble
    dsimp only
    rw [h1, h1]

theorem assemble_custom_overrides_skills_witness :
    (assemble (some [coreDoc]) (some sampleCustom) [] "claude-sonnet-4.5").1.instructions =
      sampleCustom ∧
    assemble (some [coreDoc]) (some sampleCustom) [] "claude-sonnet-4.5" =
      assemble none (some sampleCustom) [] "claude-sonnet-4.5" :=
  assemble_custom_overrides_skills (some [coreDoc]) sampleCustom [] "claude-sonnet-4.5"
    (by decide)

/-! ## SkillLoader theorems -/

/-- The ids of a deduplicated document list are pairwise distinct. -/
theorem dedupById_id_nodup (l : List SkillDocument) :
    ((dedupById l).map (fun d => d.id)).Nodup := by
  induction l with
  | nil => simp [dedupById]
  | cons d ds ih =>
      simp only [dedupById, List.map_cons, List.nodup_cons]
      constructor
      · intro hmem
        rcases List.mem_map.mp hmem with ⟨e, he, heq⟩
        have hne := List.of_mem_filter he
        simp only [decide_eq_true_eq] at hne
        exact hne heq
      · exact ih.sublist ((List.filter_sublist (dedupById ds)).map _)

/-- A document whose id occurs only through itself survives
deduplication. -/
theorem mem_dedupById {d : SkillDocument} {l : List SkillDocument}
    (hd : d ∈ l) (hu : ∀ e ∈ l, e.id = d.id → e = d) : d ∈ dedupById l := by
  induction l with
  | nil => cases hd
  | cons x xs ih =>
      by_cases hx : x = d
      · subst hx
        exact List.mem_cons_self _ _
      · rcases List.mem_cons.mp hd with h | h
        · exact absurd h.symm hx
        · have hne : d.id ≠ x.id := by
            intro hid
            exact hx (hu x (List.mem_cons_self _ _) hid.symm)
          have hmem : d ∈ dedupById xs :=
            ih h (fun e he hid => hu e (List.mem_cons_of_mem _ he) hid)
          exact List.mem_cons_of_mem _
            (List.mem_filter.mpr ⟨hmem, by simpa using hne⟩)

/-- The argument list handed to dedupById by load is drawn from the
fixed pool. -/
theorem load_arg_subset (ctx : ReviewContext) :
    ([coreDoc]
      ++ (orderedLanguages.filter (fun t => ctx.languages.contains t)).filterMap langDoc
      ++ (orderedFrameworks.filter (fun t => ctx.frameworks.contains t)).filterMap fwDoc
      ++ [securityDoc, architectureDoc, performanceDoc]) ⊆ skillPool := by
  unfold skillPool
  refine List.append_subset.mpr ⟨List.append_subset.mpr ⟨List.append_subset.mpr
    ⟨?_, ?_⟩, ?_⟩, ?_⟩
  · intro x hx
    exact List.mem_append.mpr (Or.inl (List.mem_append.mpr (Or.inl
      (List.mem_append.mpr (Or.inl hx)))))
  · intro x hx
    have hsub : (orderedLanguages.filter
        (fun t => ctx.languages.contains t)).filterMap langDoc ⊆
        orderedLanguages.filterMap langDoc :=
      ((List.filter_sublist orderedLanguages).filterMap _).subset
    exact List.mem_append.mpr (Or.inl (List.mem_append.mpr (Or.inl
      (List.mem_append.mpr (Or.inr (hsub hx))))))
  · intro x hx
    have hsub : (orderedFrameworks.filter
        (fun t => ctx.frameworks.contains t)).filterMap fwDoc ⊆
        orderedFrameworks.filterMap fwDoc :=
      ((List.filter_sublist orderedFrameworks).filterMap _).subset
    exact List.mem_append.mpr (Or.inl (List.mem_append.mpr (Or.inr (hsub hx))))
  · intro x hx
    exact List.mem_append.mpr (Or.inr hx)

/-- C6: the loaded skill set never contains duplicate ids and always
contains the three cross-cutting documents, whatever was detected. -/
theorem skillLoader_nodup_and_crosscutting (ctx : ReviewContext) :
    ((load ctx).map (fun d => d.id)).Nodup ∧
    securityDoc ∈ load ctx ∧ architectureDoc ∈ load ctx ∧
    performanceDoc ∈ load ctx := by
  have hsec : ∀ e ∈ skillPool, e.id = "security" → e = securityDoc := by decide
  have harc : ∀ e ∈ skillPool, e.id = "architecture" → e = architectureDoc := by decide
  have hperf : ∀ e ∈ skillPool, e.id = "performance" → e = performanceDoc := by decide
  refine ⟨dedupById_id_nodup _, ?_, ?_, ?_⟩
  · exact mem_dedupById (by simp)
      (fun e he hid => hsec e (load_arg_subset ctx he) hid)
  · exact mem_dedupById (by simp)
      (fun e he hid => harc e (load_arg_subset ctx he) hid)
  · exact mem_dedupById (by simp)
      (fun e he hid => hperf e (load_arg_subset ctx he) hid)

/-! ## ReviewInvoker theorems -/

/-- C7: per invocation there is at most one primary and at most one
fallback attempt; the fallback attempt happens only when a fallback is
configured and the primary failed; a fallback failure ends in the
terminal Failed state; and no state of the machine is revisited. -/
theorem invoker_single_fallback_no_retry (payload : PromptPayload)
    (primary : Backend) (fallback : Option Backend) :
    ((invokeTrace payload primary fallback).count InvokeState.PrimaryAttempt = 1) ∧
    ((invokeTrace payload primary fallback).count InvokeState.FallbackAttempt ≤ 1) ∧
    (InvokeState.FallbackAttempt ∈ invokeTrace payload primary fallback →
      fallback.isSome = true ∧ ∃ e, primary.run payload = AttemptResult.err e) ∧
    (∀ fb e1 e2, fallback = some fb →
      primary.run payload = AttemptResult.err e1 →
      fb.run payload = AttemptResult.err e2 →
      invokeTrace payload primary fallback =
        [InvokeState.Idle, InvokeState.PrimaryAttempt,
         InvokeState.FallbackAttempt, InvokeState.Failed]) ∧
    (invokeTrace payload primary fallback).Nodup := by
  rcases hp : primary.run payload with raw | e
  · have htr : invokeTrace payload primary fallback =
        [InvokeState.Idle, InvokeState.PrimaryAttempt,
         InvokeState.Success raw primary.name] := by
      unfold invokeTrace
      rw [hp]
    rw [htr]
    refine ⟨by simp [List.count_cons], by simp [List.count_cons], ?_, ?_, by simp⟩
    · intro hmem
      simp at hmem
    · intro fb e1 e2 hfb hrun hrun2
      cases hrun
  · rcases fallback with _ | fb
    · have htr : invokeTrace payload primary none =
          [InvokeState.Idle, InvokeState.PrimaryAttempt, InvokeState.Failed] := by
        unfold invokeTrace
        rw [hp]
      rw [htr]
      refine ⟨by simp [List.count_cons], by simp [List.count_cons], ?_, ?_, by simp⟩
      · intro hmem
        simp at hmem
      · intro fb e1 e2 hfb
        cases hfb
    · rcases hf : fb.run payload with raw2 | e2
      · have htr : invokeTrace payload primary (some fb) =
            [InvokeState.Idle, InvokeState.PrimaryAttempt,
             InvokeState.FallbackAttempt, InvokeState.Success raw2 fb.name] := by
          unfold invokeTrace
          rw [hp]
          dsimp only
          rw [hf]
        rw [htr]
        refine ⟨by simp [List.count_cons], by simp [List.count_cons],
          fun _ => ⟨rfl, e, rfl⟩, ?_, by simp⟩
        intro fb2 d1 d2 hfb hrun hrun2
        cases hfb
        rw [hf] at hrun2
        cases hrun2
      · have htr : invokeTrace payload primary (some fb) =
            [InvokeState.Idle, InvokeState.PrimaryAttempt,
             InvokeState.FallbackAttempt, InvokeState.Failed] := by
          unfold invokeTrace
          rw [hp]
          dsimp only
          rw [hf]
        rw [htr]
        exact ⟨by simp [List.count_cons], by simp [List.count_cons],
          fun _ => ⟨rfl, e, rfl⟩, fun _ _ _ _ _ _ => rfl, by simp⟩

theorem invoker_single_fallback_no_retry_witness :
    ((some failingFallback).isSome = true ∧
      ∃ e, failingPrimary.run samplePayload = AttemptResult.err e) ∧
    invokeTrace samplePayload failingPrimary (some failingFallback) =
      [InvokeState.Idle, InvokeState.PrimaryAttempt,
       InvokeState.FallbackAttempt, InvokeState.Failed] :=
  ⟨(invoker_single_fallback_no_retry samplePayload failingPrimary
      (some failingFallback)).2.2.1 (by decide),
   (invoker_single_fallback_no_retry samplePayload failingPrimary
      (some failingFallback)).2.2.2.1 failingFallback BackendError.unavailable
      BackendError.timeout rfl rfl rfl⟩

/-! ## ResponseParser theorems -/

/-- C2: parseResponse is total, and when the strict stage, the repair
stage and the heuristic extraction all come up empty, the result is the
absolute fallback: Unknown assessment and an empty findings sequence. -/
theorem responseParser_total_with_unknown_fallback :
    (∀ raw : String, ∃ r : ReviewResult, parseResponse raw = r) ∧
    (∀ raw : String, strictStage raw = none → repairStage raw = none →
      extractFindings raw = [] → parseResponse raw = fallbackReview) := by
  constructor
  · intro raw
    exact ⟨parseResponse raw, rfl⟩
  · intro raw h1 h2 h3
    simp [parseResponse, h1, h2, extractionStage, fallbackReview, h3]

theorem responseParser_total_with_unknown_fallback_witness :
    parseResponse "zzz" = fallbackReview :=
  responseParser_total_with_unknown_fallback.2 "zzz" rfl rfl rfl

/-! ## Failure propagation policy -/

/-- C1 amended: the pipeline surfaces an error exactly when the invoker
reaches its terminal Failed state (all other anomalies become metadata
on the ok result); at the task entrypoint, among outcomes of an
executed review script, a non-zero exit code is the only one mapped to
a failing task result, and that mapping is gated by continueOnError
(default "true"), under which a non-zero exit becomes
SucceededWithIssues.  (Failed additionally arises at the entrypoint
from a missing access token, and from an exception under
continueOnError different from "true".) -/
theorem failure_propagation_policy :
    (∀ (cfg : ReviewConfig) (files : List DiffFile) (primary : Backend)
        (fallback : Option Backend),
      (∃ e, reviewPipeline cfg files primary fallback = Except.error e) ↔
        invoke (assembledPayload cfg files).1 primary fallback = none) ∧
    (∀ (inp : TaskInputs) (env : TaskEnv) (g : String) (c : Int),
      inp.githubPat = some g →
      env.execOutcome = Except.ok c →
      (run inp env).executedScript = true →
      (((run inp env).result = some (TaskResult.Failed,
          "Review script exited with code " ++ toString c)) ↔
        (c ≠ 0 ∧ getInputOr inp.continueOnError "true" ≠ "true")) ∧
      (c ≠ 0 → getInputOr inp.continueOnError "true" = "true" →
        (run inp env).result = some (TaskResult.SucceededWithIssues,
          "Review script exited with code " ++ toString c))) := by
  constructor
  · intro cfg files primary fallback
    unfold reviewPipeline
    dsimp only
    rcases h : invoke (assembledPayload cfg files).1 primary fallback with _ | served
    · constructor
      · intro _
        rfl
      · intro _
        exact ⟨PipelineFailure.invokerFailed, rfl⟩
    · constructor
      · rintro ⟨e, he⟩
        simp at he
      · intro hn
        cases hn
  · intro inp env g c hpat hexec hscript
    unfold run at hscript ⊢
    rw [hpat] at hscript ⊢
    dsimp only at hscript ⊢
    by_cases hst : jsOr (jsOr env.systemAccessToken (getInputOr inp.adoPat "")) "" = ""
    · rw [if_pos hst] at hscript
      exact absurd hscript (by simp)
    · rw [if_neg hst] at hscript ⊢
      rcases hwp : whichPythonPath env with _ | p
      · rw [hwp] at hscript
        simp at hscript
      · dsimp only
        rw [hexec]
        dsimp only
        by_cases hc : c = 0
        · subst hc
          constructor
          · constructor
            · intro hres
              simp at hres
            · rintro ⟨hne, _⟩
              exact absurd rfl hne
          · intro hne _
            exact absurd rfl hne
        · rw [if_pos hc]
          by_cases hco : getInputOr inp.continueOnError "true" = "true"
          · rw [if_pos hco]
            refine ⟨⟨fun hres => ?_, fun hand => absurd hco hand.2⟩, fun _ _ => rfl⟩
            simp at hres
          · rw [if_neg hco]
            exact ⟨⟨fun _ => ⟨hc, hco⟩, fun _ => rfl⟩, fun _ hco2 => absurd hco2 hco⟩

theorem failure_propagation_policy_witness :
    (∃ e, reviewPipeline sampleConfig [] failingPrimary none = Except.error e) ∧
    (run sampleInputs sampleEnvExecFail).result =
      some (TaskResult.SucceededWithIssues, "Review script exited with code 3") :=
  ⟨(failure_propagation_policy.1 sampleConfig [] failingPrimary none).mpr rfl,
   (failure_propagation_policy.2 sampleInputs sampleEnvExecFail "github_pat_x" 3
      rfl rfl rfl).2 (by decide) rfl⟩

theorem budget_keeps_first_maxFiles_within_total_cap_witness :
    (budget sampleFiles 1 1000 400000).chunks =
      (sampleFiles.take 1).map (fun f => (budgetFile f 1000).1) ∧
    (budget sampleFiles 1 1000 400000).chunks.length = 1 ∧
    (budget sampleFiles 1 1000 400000).chunks.map (fun c => c.filePath) =
      (sampleFiles.take 1).map (fun f => f.filePath) ∧
    (budget sampleFiles 1 1000 400000).omittedFiles =
      (sampleFiles.drop 1).map (fun f => f.filePath) ∧
    (budget sampleFiles 1 1000 400000).truncated = true :=
  budget_keeps_first_maxFiles_within_total_cap sampleFiles 1 1000 400000
    (by decide) (by decide)
